import Mathlib

/-!
Verification of the incremental-capture engine (`mycanal/incrdump`) of
`huangjunwen/golibs`: the transaction framing state machine of `IncrDump`
(meta.go), the length accounting helper `safeUint64Minus` (util.go), and the
row value normalizer `normalizeRowData`.

Machine integers are modelled as `Nat`/`Int` with explicit `% 2^w` where Go
conversion semantics matter.  Go `panic` is modelled as a distinct terminal
outcome, and the fallible event loop as a step function over a finite list of
fetch results.
-/

namespace Golibs.Incrdump

/-! ## MySQL column type constants (go-mysql `const.go`) -/

def MYSQL_TYPE_TINY : Nat := 1

def MYSQL_TYPE_SHORT : Nat := 2

def MYSQL_TYPE_LONG : Nat := 3

def MYSQL_TYPE_FLOAT : Nat := 4

def MYSQL_TYPE_DOUBLE : Nat := 5

def MYSQL_TYPE_LONGLONG : Nat := 8

def MYSQL_TYPE_INT24 : Nat := 9

def MYSQL_TYPE_DATE : Nat := 10

def MYSQL_TYPE_YEAR : Nat := 13

def MYSQL_TYPE_NEWDATE : Nat := 14

def MYSQL_TYPE_NEWDECIMAL : Nat := 246

def MYSQL_TYPE_ENUM : Nat := 247

def MYSQL_TYPE_SET : Nat := 248

def MYSQL_TYPE_STRING : Nat := 254

/-! ## Decoded column values

The replication library hands the normalizer loosely typed values; we model
them as a closed tagged union.  Signed integer payloads are `Int` (the Go
decoder guarantees they are in the range of their width); unsigned payloads
are `Nat`.  A decimal is carried by its canonical string (its Go `String()`
form), a float by its raw bits (it is never modified), a timestamp by an
opaque representation plus a UTC flag, a byte slice by its textual content. -/

inductive Value where
  | null
  | i8 (v : Int)
  | i16 (v : Int)
  | i32 (v : Int)
  | i64 (v : Int)
  | int (v : Int)
  | u8 (v : Nat)
  | u16 (v : Nat)
  | u32 (v : Nat)
  | u64 (v : Nat)
  | uint (v : Nat)
  | dec (s : String)
  | f32 (bits : Nat)
  | f64 (bits : Nat)
  | str (s : String)
  | bytes (s : String)
  | tm (t : String) (utc : Bool)
  deriving Repr, DecidableEq

/-- The Go dynamic type name of a decoded value (what `%T` would print),
used in fatal type-mismatch messages. -/
def Value.kindName : Value → String
  | .null => "<nil>"
  | .i8 _ => "int8"
  | .i16 _ => "int16"
  | .i32 _ => "int32"
  | .i64 _ => "int64"
  | .int _ => "int"
  | .u8 _ => "uint8"
  | .u16 _ => "uint16"
  | .u32 _ => "uint32"
  | .u64 _ => "uint64"
  | .uint _ => "uint"
  | .dec _ => "decimal.Decimal"
  | .f32 _ => "float32"
  | .f64 _ => "float64"
  | .str _ => "string"
  | .bytes _ => "[]uint8"
  | .tm _ _ => "time.Time"

/-! ## Go integer conversion semantics

Go's conversion from a signed integer to an unsigned integer of width `w`
reinterprets the two's complement bit pattern, i.e. takes the value modulo
`2^w`.  `Int.emod` with a positive modulus lands in `[0, 2^w)`. -/

def uint8ofInt (v : Int) : Nat := (v % 256).toNat

def uint16ofInt (v : Int) : Nat := (v % 65536).toNat

def uint32ofInt (v : Int) : Nat := (v % 4294967296).toNat

def uint64ofInt (v : Int) : Nat := (v % 18446744073709551616).toNat

/-- Bit `j` of the two's complement representation of a 64-bit signed value:
Go's `v & (1 << uint(j)) != 0`. -/
def int64bit (v : Int) (j : Nat) : Bool :=
  ((v % 18446744073709551616).toNat).testBit j

/-! ## Table metadata (`tableMeta` in meta.go)

`tableMeta` wraps the stream's per-table descriptor and caches the per-column
facts computed by the replication library: the unsigned-column map, the
enum/set label lists (Go maps; a missing key yields the zero value), and the
declared type plus per-column metadata bytes that `RealType` resolves. -/

structure TableMeta where
  columnType : List Nat
  columnMeta : List Nat
  unsignedMap : List Bool
  enumStrValueMap : List (List String)
  setStrValueMap : List (List String)
  deriving Repr, DecidableEq

/-- `tableMeta.RealType` (meta.go): a generic string declaration whose extra
metadata byte encodes enum/set resolves to that sub-type; the legacy date
type resolves to the modern date tag; everything else is returned as is. -/
def TableMeta.realType (meta : TableMeta) (i : Nat) : Nat :=
  let typ := meta.columnType.getD i 0
  if typ = MYSQL_TYPE_STRING then
    let rtyp := meta.columnMeta.getD i 0 / 256
    if rtyp = MYSQL_TYPE_ENUM ∨ rtyp = MYSQL_TYPE_SET then rtyp else typ
  else if typ = MYSQL_TYPE_DATE then MYSQL_TYPE_NEWDATE
  else typ

/-- `TableMapEvent.IsNumericColumn` of the replication library: true exactly
for the numeric real types. -/
def TableMeta.isNumericColumn (meta : TableMeta) (i : Nat) : Bool :=
  let t := meta.realType i
  t == MYSQL_TYPE_TINY || t == MYSQL_TYPE_SHORT || t == MYSQL_TYPE_INT24 ||
    t == MYSQL_TYPE_LONG || t == MYSQL_TYPE_LONGLONG || t == MYSQL_TYPE_NEWDECIMAL ||
    t == MYSQL_TYPE_FLOAT || t == MYSQL_TYPE_DOUBLE

/-- `TableMapEvent.IsEnumColumn` of the replication library. -/
def TableMeta.isEnumColumn (meta : TableMeta) (i : Nat) : Bool :=
  meta.realType i == MYSQL_TYPE_ENUM

/-- `TableMapEvent.IsSetColumn` of the replication library. -/
def TableMeta.isSetColumn (meta : TableMeta) (i : Nat) : Bool :=
  meta.realType i == MYSQL_TYPE_SET

/-! ## The row value normalizer (`normalizeRowData`) -/

/-- Fatal conditions of the normalizer: Go `panic`s (type mismatch carrying
the expected and actual kinds, slice index out of range, date parse error). -/
inductive NormErr where
  | typeMismatch (expected actual : String)
  | indexOutOfRange
  | dateParseError
  deriving Repr, DecidableEq

/-- The set-column loop: `for j := 0; j < 64; j++ { if v&(1<<j) != 0 { vals =
append(vals, setStrValue[j]) } }`.  Indexing past the label list is a Go
index-out-of-range panic.  `j` is the next bit position, `k` the number of
iterations left. -/
def collectSetLabelsAux (labels : List String) (v : Int) : Nat → Nat → Except NormErr (List String)
  | _, 0 => .ok []
  | j, k + 1 =>
    if int64bit v j then
      match labels.get? j with
      | some l => (collectSetLabelsAux labels v (j + 1) k).map fun ls => l :: ls
      | none => .error .indexOutOfRange
    else collectSetLabelsAux labels v (j + 1) k

def collectSetLabels (labels : List String) (v : Int) : Except NormErr (List String) :=
  collectSetLabelsAux labels v 0 64

/-- Modelled from the spec: the external `time.Parse("2006-01-02", v)` of the
date branch is not part of this repository; the spec says the raw value
"must decode as a text string formatted YYYY-MM-DD ... malformed text is
fatal".  We validate that shape and keep the text as the parsed date's
representation. -/
def parseDateText (s : String) : Option String :=
  match s.splitOn "-" with
  | [y, m, d] =>
    if y.length = 4 && m.length = 2 && d.length = 2 &&
        y.all Char.isDigit && m.all Char.isDigit && d.all Char.isDigit &&
        1 ≤ (m.toNat?.getD 0) && (m.toNat?.getD 0) ≤ 12 &&
        1 ≤ (d.toNat?.getD 0) && (d.toNat?.getD 0) ≤ 31 then
      some s
    else none
  | _ => none

/-- One column of `normalizeRowData` (the loop body over `data`): `nil`
passes through; a numeric decimal becomes its canonical string; an unsigned
numeric is reinterpreted by bit pattern (with the medium-int correction);
enum values index the label list (1-based); set values join the labels of
their set bits; year becomes `uint16`; date text is parsed; timestamps go to
UTC; byte slices become strings. -/
def normalizeColumnValue (meta : TableMeta) (i : Nat) (val : Value) : Except NormErr Value :=
  match val with
  | .null => .ok .null
  | _ =>
    if meta.isNumericColumn i then
      match val with
      | .dec s => .ok (.str s)
      | _ =>
        if ! meta.unsignedMap.getD i false then .ok val
        else
          match val with
          | .i8 v => .ok (.u8 (uint8ofInt v))
          | .i16 v => .ok (.u16 (uint16ofInt v))
          | .i32 v =>
            if v < 0 ∧ meta.realType i = MYSQL_TYPE_INT24 then
              .ok (.u32 (uint32ofInt (16777215 + v + 1)))
            else .ok (.u32 (uint32ofInt v))
          | .i64 v => .ok (.u64 (uint64ofInt v))
          | .int v => .ok (.uint (uint64ofInt v))
          | _ => .ok val
    else if meta.isEnumColumn i then
      match val with
      | .i64 v =>
        let labels := meta.enumStrValueMap.getD i []
        if 1 ≤ v ∧ (v - 1).toNat < labels.length then
          .ok (.str (labels.getD (v - 1).toNat ""))
        else .error .indexOutOfRange
      | _ => .error (.typeMismatch "int64 for enum (MYSQL_TYPE_ENUM) field" val.kindName)
    else if meta.isSetColumn i then
      match val with
      | .i64 v =>
        (collectSetLabels (meta.setStrValueMap.getD i []) v).map fun ls =>
          .str (String.intercalate "," ls)
      | _ => .error (.typeMismatch "int64 for set (MYSQL_TYPE_SET) field" val.kindName)
    else if meta.realType i = MYSQL_TYPE_YEAR then
      match val with
      | .int v => .ok (.u16 (uint16ofInt v))
      | _ => .error (.typeMismatch "int for year (MYSQL_TYPE_YEAR) field" val.kindName)
    else if meta.realType i = MYSQL_TYPE_NEWDATE then
      match val with
      | .str s =>
        match parseDateText s with
        | some t => .ok (.tm t true)
        | none => .error .dateParseError
      | _ => .error (.typeMismatch "string for date (MYSQL_TYPE_NEWDATE) field" val.kindName)
    else
      match val with
      | .tm t _ => .ok (.tm t true)
      | .bytes s => .ok (.str s)
      | _ => .ok val

def normalizeRowDataAux (meta : TableMeta) : Nat → List Value → Except NormErr (List Value)
  | _, [] => .ok []
  | i, v :: rest => do
    let v2 ← normalizeColumnValue meta i v
    let rest2 ← normalizeRowDataAux meta (i + 1) rest
    .ok (v2 :: rest2)

/-- `normalizeRowData(data, meta)`: normalize each column in place (the Go
function mutates `data`; the model returns the new row, or the first fatal
condition encountered, columns processed left to right). -/
def normalizeRowData (meta : TableMeta) (data : List Value) : Except NormErr (List Value) :=
  normalizeRowDataAux meta 0 data

/-! ## GTID sets and transaction context -/

/-- Modelled from the spec: the external GTID-set library type is "a mapping
from source identifier to the set of sequence numbers already applied",
supporting clone and merge-one-GTID; we model it as the list of merged
GTIDs. -/
abbrev GTIDSet := List String

/-- Modelled from the spec: `Clone()` is a deep copy; in the pure model a
value copy is the value itself. -/
def GTIDSet.clone (s : GTIDSet) : GTIDSet := s

/-- Modelled from the spec: advance the set by exactly one transaction. -/
def GTIDSet.mergeOne (s : GTIDSet) (g : String) : GTIDSet := s ++ [g]

/-- The fields of the replication library's GTID event that `IncrDump`
reads: the source id (as its uuid text), the sequence number, and the
declared total transaction byte length. -/
structure GTIDEventData where
  sid : String
  gno : Int
  transactionLength : Nat
  deriving Repr, DecidableEq

/-- `gtidFromGTIDEvent` (util.go): format `"%s:%d"` from the event's source
uuid and sequence number. -/
def gtidFromGTIDEvent (e : GTIDEventData) : String :=
  e.sid ++ ":" ++ toString e.gno

/-- The transaction context created at a begin marker.  Modelled from the
spec for the fields not under `src/` (the `TrxContext` declaration lives in
the events file, only its construction in meta.go is given): it "holds the
GTID-set snapshot immediately prior to this transaction" and "this
transaction's GTID". -/
structure TrxContext where
  prevGset : GTIDSet
  gtidEvent : GTIDEventData
  gtid : String
  deriving Repr, DecidableEq

/-- Modelled from the spec: `TrxContext.AfterGTIDSet()` is not under `src/`;
per the spec the after snapshot is the before snapshot advanced by "merging
this transaction's GTID". -/
def TrxContext.afterGTIDSet (trx : TrxContext) : GTIDSet :=
  GTIDSet.mergeOne trx.prevGset trx.gtid

/-! ## Handler events -/

/-- The payload shared by the row-event variants (`rowChange` in the events
file): the owning transaction context, the resolved table metadata, and the
normalized before/after images. -/
structure RowChange where
  trxCtx : TrxContext
  meta : TableMeta
  beforeData : Option (List Value)
  afterData : Option (List Value)
  deriving Repr, DecidableEq

/-- The closed set of events delivered to the caller's handler. -/
inductive HandlerEvent where
  | trxBeginning (trx : TrxContext)
  | rowInsertion (rc : RowChange)
  | rowUpdating (rc : RowChange)
  | rowDeletion (rc : RowChange)
  | trxEnding (trx : TrxContext)
  deriving Repr, DecidableEq

def HandlerEvent.isBeginning : HandlerEvent → Bool
  | .trxBeginning _ => true
  | _ => false

def HandlerEvent.isEnding : HandlerEvent → Bool
  | .trxEnding _ => true
  | _ => false

def countBegins (tr : List HandlerEvent) : Nat := tr.countP HandlerEvent.isBeginning

def countEnds (tr : List HandlerEvent) : Nat := tr.countP HandlerEvent.isEnding

/-- The caller-supplied handler, modelled as a pure function returning
`none` on success and `some e` for an error `e`. -/
abbrev Handler := HandlerEvent → Option String

/-! ## Stream events -/

/-- The header event type of a rows event: `WRITE_ROWS_EVENTv2`,
`UPDATE_ROWS_EVENTv2`, `DELETE_ROWS_EVENTv2`, or any other rows-event kind
(v0/v1), which the loop rejects. -/
inductive RowsKind where
  | write
  | update
  | delete
  | other
  deriving Repr, DecidableEq

/-- The table descriptor referenced by a rows event: the declared column
count, the column name list (whose length the loop validates), and the
derived metadata the resolver computes from it. -/
structure TableMap where
  columnCount : Nat
  columnName : List String
  meta : TableMeta
  deriving Repr, DecidableEq

inductive BinlogEventBody where
  | gtid (e : GTIDEventData)
  | rows (kind : RowsKind) (table : TableMap) (rows : List (List Value))
  | other
  deriving Repr, DecidableEq

structure BinlogEvent where
  eventSize : Nat
  body : BinlogEventBody
  deriving Repr, DecidableEq

/-- One fetch attempt of the loop: the cancellation signal observed before
the fetch, the fetch failing with the context's own cancellation error, the
fetch failing with another error, or a fetched event. -/
inductive FetchResult where
  | cancelledBefore
  | fetchCtxErr
  | fetchErr (e : String)
  | event (ev : BinlogEvent)
  deriving Repr, DecidableEq

/-! ## The `IncrDump` loop -/

/-- Go panics of the loop (each a `panic(fmt.Errorf(...))` in meta.go,
util.go, or the normalizer). -/
inductive PanicKind where
  | overlappingTrx
  | zeroTrxLength
  | safeMinusUnderflow
  | columnNameMismatch
  | badRowsEventType
  | rowIndexOutOfRange
  | normError (e : NormErr)
  deriving Repr, DecidableEq

/-- `safeUint64Minus` (util.go): `if left >= right { return left - right }`,
otherwise `panic`. -/
def safeUint64Minus (left right : Nat) : Except PanicKind Nat :=
  if left ≥ right then .ok (left - right) else .error .safeMinusUnderflow

/-- How one loop iteration ends the whole call: return `nil`, return an
error, or panic. -/
inductive Outcome where
  | done
  | fail (e : String)
  | panicked (p : PanicKind)
  deriving Repr, DecidableEq

/-- The loop's mutable state: the running GTID set, the current transaction
context (`nil` when idle), and the remaining byte length of the open
transaction. -/
structure LoopState where
  prevGset : GTIDSet
  trxCtx : Option TrxContext
  trxRemainSize : Nat
  deriving Repr, DecidableEq

/-- Result of processing one fetched event: keep looping with a new state,
or stop the call; either way carrying the handler events delivered during
the step, in delivery order. -/
inductive StepResult where
  | cont (st : LoopState) (emitted : List HandlerEvent)
  | stop (out : Outcome) (emitted : List HandlerEvent)
  deriving Repr, DecidableEq

/-- Result of a row-emission helper. -/
inductive EmitResult where
  | ok (emitted : List HandlerEvent)
  | stop (out : Outcome) (emitted : List HandlerEvent)
  deriving Repr, DecidableEq

/-- The GTID-event branch of the loop: reject an overlapping transaction,
reject a zero declared length, create the context (cloning the running set),
compute the remaining length, deliver `TrxBeginning`. -/
def handleGtid (handler : Handler) (st : LoopState) (size : Nat) (e : GTIDEventData) : StepResult :=
  match st.trxCtx with
  | some _ => .stop (.panicked .overlappingTrx) []
  | none =>
    if e.transactionLength = 0 then .stop (.panicked .zeroTrxLength) []
    else
      let trx : TrxContext := ⟨GTIDSet.clone st.prevGset, e, gtidFromGTIDEvent e⟩
      match safeUint64Minus e.transactionLength size with
      | .error p => .stop (.panicked p) []
      | .ok remain =>
        match handler (.trxBeginning trx) with
        | some err => .stop (.fail err) [.trxBeginning trx]
        | none => .cont ⟨st.prevGset, some trx, remain⟩ [.trxBeginning trx]

/-- The `WRITE_ROWS_EVENTv2` branch: one `RowInsertion` per row, in order,
after-image only. -/
def emitInsertions (handler : Handler) (trx : TrxContext) (meta : TableMeta) :
    List (List Value) → EmitResult
  | [] => .ok []
  | row :: rest =>
    match normalizeRowData meta row with
    | .error e => .stop (.panicked (.normError e)) []
    | .ok after =>
      let ev := HandlerEvent.rowInsertion ⟨trx, meta, none, some after⟩
      match handler ev with
      | some err => .stop (.fail err) [ev]
      | none =>
        match emitInsertions handler trx meta rest with
        | .ok em => .ok (ev :: em)
        | .stop out em => .stop out (ev :: em)

/-- The `UPDATE_ROWS_EVENTv2` branch: rows arrive as alternating before
entry then after entry (`Rows[i]`, `Rows[i+1]` with `i += 2`); an odd row
count makes `Rows[i+1]` a Go index-out-of-range panic. -/
def emitUpdates (handler : Handler) (trx : TrxContext) (meta : TableMeta) :
    List (List Value) → EmitResult
  | [] => .ok []
  | [_] => .stop (.panicked .rowIndexOutOfRange) []
  | bRow :: aRow :: rest =>
    match normalizeRowData meta bRow with
    | .error e => .stop (.panicked (.normError e)) []
    | .ok b =>
      match normalizeRowData meta aRow with
      | .error e => .stop (.panicked (.normError e)) []
      | .ok a =>
        let ev := HandlerEvent.rowUpdating ⟨trx, meta, some b, some a⟩
        match handler ev with
        | some err => .stop (.fail err) [ev]
        | none =>
          match emitUpdates handler trx meta rest with
          | .ok em => .ok (ev :: em)
          | .stop out em => .stop out (ev :: em)

/-- The `DELETE_ROWS_EVENTv2` branch: one `RowDeletion` per row, in order,
before-image only. -/
def emitDeletions (handler : Handler) (trx : TrxContext) (meta : TableMeta) :
    List (List Value) → EmitResult
  | [] => .ok []
  | row :: rest =>
    match normalizeRowData meta row with
    | .error e => .stop (.panicked (.normError e)) []
    | .ok before =>
      let ev := HandlerEvent.rowDeletion ⟨trx, meta, some before, none⟩
      match handler ev with
      | some err => .stop (.fail err) [ev]
      | none =>
        match emitDeletions handler trx meta rest with
        | .ok em => .ok (ev :: em)
        | .stop out em => .stop out (ev :: em)

/-- Dispatch on the rows event's header type; any kind other than the three
v2 kinds panics. -/
def emitRows (handler : Handler) (trx : TrxContext) (meta : TableMeta) (kind : RowsKind)
    (rows : List (List Value)) : EmitResult :=
  match kind with
  | .write => emitInsertions handler trx meta rows
  | .update => emitUpdates handler trx meta rows
  | .delete => emitDeletions handler trx meta rows
  | .other => .stop (.panicked .badRowsEventType) []

/-- The "check trx end" tail of an iteration with an open transaction:
subtract the event's size from the remaining length (`safeUint64Minus`); if
something remains keep looping, otherwise deliver `TrxEnding`, advance the
running GTID set to the transaction's after snapshot, and drop the
context. -/
def finishEvent (handler : Handler) (st : LoopState) (trx : TrxContext) (size : Nat)
    (emitted : List HandlerEvent) : StepResult :=
  match safeUint64Minus st.trxRemainSize size with
  | .error p => .stop (.panicked p) emitted
  | .ok remain =>
    if remain > 0 then .cont ⟨st.prevGset, st.trxCtx, remain⟩ emitted
    else
      match handler (.trxEnding trx) with
      | some err => .stop (.fail err) (emitted ++ [.trxEnding trx])
      | none =>
        .cont ⟨GTIDSet.clone (TrxContext.afterGTIDSet trx), none, remain⟩
          (emitted ++ [.trxEnding trx])

/-- One iteration of the `IncrDump` loop body on a fetched event: a GTID
event starts a transaction; anything else is ignored while idle; a rows
event inside a transaction validates the column names and emits the row
changes; then the remaining-length accounting runs. -/
def processEvent (handler : Handler) (st : LoopState) (ev : BinlogEvent) : StepResult :=
  match ev.body with
  | .gtid e => handleGtid handler st ev.eventSize e
  | .rows kind table rows =>
    match st.trxCtx with
    | none => .cont st []
    | some trx =>
      if table.columnName.length ≠ table.columnCount then
        .stop (.panicked .columnNameMismatch) []
      else
        match emitRows handler trx table.meta kind rows with
        | .stop out em => .stop out em
        | .ok em => finishEvent handler st trx ev.eventSize em
  | .other =>
    match st.trxCtx with
    | none => .cont st []
    | some trx => finishEvent handler st trx ev.eventSize []

/-- Result of running the loop on a finite list of fetch results: the call
terminated with an outcome, or the input was exhausted with the loop still
running in some state; both carry the full delivery trace. -/
inductive RunResult where
  | terminated (out : Outcome) (trace : List HandlerEvent)
  | pending (st : LoopState) (trace : List HandlerEvent)
  deriving Repr, DecidableEq

/-- The `for` loop of `IncrDump`: check cancellation, fetch (a fetch error
equal to the context's error is turned into a `nil` return, any other fetch
error is wrapped with the get-event stage message), process the event, and
iterate. -/
def runLoop (handler : Handler) : LoopState → List FetchResult → RunResult
  | st, [] => .pending st []
  | st, fr :: rest =>
    match fr with
    | .cancelledBefore => .terminated .done []
    | .fetchCtxErr => .terminated .done []
    | .fetchErr e => .terminated (.fail ("incrdump.IncrDump get event error: " ++ e)) []
    | .event ev =>
      match processEvent handler st ev with
      | .stop out em => .terminated out em
      | .cont st2 em =>
        match runLoop handler st2 rest with
        | .pending st3 tr => .pending st3 (em ++ tr)
        | .terminated out tr => .terminated out (em ++ tr)

/-- `IncrDump` after a successful start: the running set starts as a clone
of the caller's starting GTID set, no transaction open. -/
def IncrDump (handler : Handler) (gset : GTIDSet) (input : List FetchResult) : RunResult :=
  runLoop handler ⟨GTIDSet.clone gset, none, 0⟩ input

/-! ## Statement helpers -/

/-- The delivery trace of an emission result, whichever way it ended. -/
def emTrace : EmitResult → List HandlerEvent
  | .ok em => em
  | .stop _ em => em

/-- The update batch layout: before/after pairs flattened as alternating
before entry (row `2k`) then after entry (row `2k+1`). -/
def interleavePairs : List (List Value × List Value) → List (List Value)
  | [] => []
  | (b, a) :: rest => b :: a :: interleavePairs rest

/-- The begin/end balance invariant: the number of `TrxBeginning` events
delivered so far exceeds the number of `TrxEnding` events by one exactly
while a transaction is open. -/
def loopInv (st : LoopState) (tr : List HandlerEvent) : Prop :=
  countBegins tr = countEnds tr + (match st.trxCtx with | some _ => 1 | none => 0)

/-! ## Concrete fixtures used by witnesses and counterexamples -/

/-- A one-column table whose column is a plain signed 32-bit integer. -/
def wMeta : TableMeta := ⟨[MYSQL_TYPE_LONG], [0], [false], [[]], [[]]⟩

def wTable : TableMap := ⟨1, ["c"], wMeta⟩

def wGtidEvent : GTIDEventData := ⟨"3e11fa47-71ca-11e1-9e33-c80aa9429562", 23, 120⟩

def wTrx : TrxContext := ⟨[], wGtidEvent, gtidFromGTIDEvent wGtidEvent⟩

/-- A one-column table whose column is an unsigned medium integer. -/
def wMedMeta : TableMeta := ⟨[MYSQL_TYPE_INT24], [0], [true], [[]], [[]]⟩

/-- A one-column table whose column is an enum with three labels. -/
def wEnumMeta : TableMeta :=
  ⟨[MYSQL_TYPE_ENUM], [0], [false], [["red", "green", "blue"]], [[]]⟩

/-- A one-column table whose column is a set with a single defined label. -/
def wSetMeta : TableMeta := ⟨[MYSQL_TYPE_SET], [0], [false], [[]], [["a"]]⟩

/-- A one-column table whose column is a set with three defined labels. -/
def wSet3Meta : TableMeta := ⟨[MYSQL_TYPE_SET], [0], [false], [[]], [["a", "b", "c"]]⟩

/-- A handler that accepts everything. -/
def wOkHandler : Handler := fun _ => none

/-- A handler that fails with "boom" exactly on the insertion of the row
whose after image is `[.i32 2]`. -/
def wBoomHandler : Handler := fun e =>
  match e with
  | .rowInsertion rc => if rc.afterData = some [.i32 2] then some "boom" else none
  | _ => none

/-! ## Helper lemmas -/

/-- Inversion of the length-accounting tail of an iteration: a `cont` result
means the subtraction succeeded, and either something remained (state
otherwise untouched) or the transaction closed with `TrxEnding` appended,
the remaining length exactly zero, and the running set advanced to the after
snapshot. -/
theorem finishEvent_cont (handler : Handler) (st : LoopState) (trx : TrxContext) (size : Nat)
    (em : List HandlerEvent) (st2 : LoopState) (em2 : List HandlerEvent)
    (h : finishEvent handler st trx size em = .cont st2 em2) :
    size ≤ st.trxRemainSize ∧ st2.trxRemainSize = st.trxRemainSize - size ∧
      ((st2.trxCtx = st.trxCtx ∧ st2.prevGset = st.prevGset ∧ 0 < st2.trxRemainSize ∧ em2 = em) ∨
        (st2.trxCtx = none ∧ st2.trxRemainSize = 0 ∧ em2 = em ++ [.trxEnding trx] ∧
          st2.prevGset = GTIDSet.clone (TrxContext.afterGTIDSet trx))) := by
  unfold finishEvent at h
  split at h
  next p heq => exact StepResult.noConfusion h
  next remain heq =>
    have hle : size ≤ st.trxRemainSize ∧ remain = st.trxRemainSize - size := by
      unfold safeUint64Minus at heq
      by_cases hge : st.trxRemainSize ≥ size
      · rw [if_pos hge] at heq
        cases heq
        exact ⟨hge, rfl⟩
      · rw [if_neg hge] at heq
        cases heq
    obtain ⟨hle1, hrm⟩ := hle
    by_cases hpos : remain > 0
    · rw [if_pos hpos] at h
      cases h
      exact ⟨hle1, hrm, Or.inl ⟨rfl, rfl, hpos, rfl⟩⟩
    · rw [if_neg hpos] at h
      split at h
      next err hh => exact StepResult.noConfusion h
      next hh =>
        cases h
        exact ⟨hle1, hrm, Or.inr ⟨rfl, show remain = 0 by omega, rfl, rfl⟩⟩

/-! ## Claims -/

/-- C9: when the cancellation signal fires — observed by the check before a
fetch, or via the fetch failing with the cancellation error — the loop
returns success with nothing further delivered (so an open transaction is
abandoned with no `TrxEnding` and the running GTID set is not advanced);
any other fetch failure is returned wrapped with the get-event stage
message. -/
theorem C9_cancellation_and_fetch_errors (handler : Handler) (st : LoopState) (e : String)
    (rest : List FetchResult) :
    runLoop handler st (.cancelledBefore :: rest) = .terminated .done [] ∧
    runLoop handler st (.fetchCtxErr :: rest) = .terminated .done [] ∧
    runLoop handler st (.fetchErr e :: rest) =
      .terminated (.fail ("incrdump.IncrDump get event error: " ++ e)) [] :=
  ⟨rfl, rfl, rfl⟩

/-- C2: a GTID event while no transaction is open panics on a zero declared
length; otherwise it clones the running set as the before snapshot, sets the
remaining length to the declared length minus the marker's own size, emits
exactly one `TrxBeginning`, and enters the open state. -/
theorem C2_transaction_begin (handler : Handler) (st : LoopState) (e : GTIDEventData)
    (size : Nat) (hidle : st.trxCtx = none) :
    (e.transactionLength = 0 →
      processEvent handler st ⟨size, .gtid e⟩ = .stop (.panicked .zeroTrxLength) []) ∧
    (∀ trx : TrxContext, trx = ⟨GTIDSet.clone st.prevGset, e, gtidFromGTIDEvent e⟩ →
      0 < e.transactionLength → size ≤ e.transactionLength →
      handler (.trxBeginning trx) = none →
      processEvent handler st ⟨size, .gtid e⟩ =
        .cont ⟨st.prevGset, some trx, e.transactionLength - size⟩ [.trxBeginning trx]) := by
  constructor
  · intro h0
    simp [processEvent, handleGtid, hidle, h0]
  · intro trx htrx hpos hle hok
    subst htrx
    have h0 : ¬ e.transactionLength = 0 := by omega
    simp only [processEvent, handleGtid, hidle, h0, if_false, safeUint64Minus, ge_iff_le,
      if_pos hle, hok]

/-- C2 witness: a concrete begin marker with declared length 120 and size 40. -/
theorem C2_transaction_begin_witness :
    processEvent wOkHandler ⟨[], none, 0⟩ ⟨40, .gtid wGtidEvent⟩ =
      .cont ⟨[], some wTrx, 80⟩ [.trxBeginning wTrx] :=
  (C2_transaction_begin wOkHandler ⟨[], none, 0⟩ wGtidEvent 40 rfl).2 wTrx rfl (by decide)
    (by decide) rfl

/-- C10: the zero-remaining check is skipped at the begin marker itself — a
declared length equal to the marker's own size leaves the transaction open
with remaining length zero and no `TrxEnding`; the next event then hits the
fatal underflow in `safeUint64Minus`. -/
theorem C10_no_close_at_marker :
    (∀ (handler : Handler) (st : LoopState) (e : GTIDEventData) (size : Nat) (trx : TrxContext),
      st.trxCtx = none → e.transactionLength = size → 0 < size →
      trx = ⟨GTIDSet.clone st.prevGset, e, gtidFromGTIDEvent e⟩ →
      handler (.trxBeginning trx) = none →
      processEvent handler st ⟨size, .gtid e⟩ =
        .cont ⟨st.prevGset, some trx, 0⟩ [.trxBeginning trx]) ∧
    (∀ (handler : Handler) (g : GTIDSet) (trx : TrxContext) (size : Nat), 0 < size →
      processEvent handler ⟨g, some trx, 0⟩ ⟨size, .other⟩ =
        .stop (.panicked .safeMinusUnderflow) []) := by
  constructor
  · intro handler st e size trx hidle hlen hpos htrx hok
    subst htrx
    have h0 : ¬ e.transactionLength = 0 := by omega
    have hle : size ≤ e.transactionLength := by omega
    have hz : e.transactionLength - size = 0 := by omega
    simp only [processEvent, handleGtid, hidle, h0, if_false, safeUint64Minus, ge_iff_le,
      if_pos hle, hok, hz]
  · intro handler g trx size hpos
    have hlt : ¬ (0 : Nat) ≥ size := by omega
    simp only [processEvent, finishEvent, safeUint64Minus, hlt, if_false]

/-- C10 witness: declared length 120 equal to the marker size, then a
40-byte event underflowing the zero remaining length. -/
theorem C10_no_close_at_marker_witness :
    processEvent wOkHandler ⟨[], none, 0⟩ ⟨120, .gtid wGtidEvent⟩ =
      .cont ⟨[], some wTrx, 0⟩ [.trxBeginning wTrx] ∧
    processEvent wOkHandler ⟨[], some wTrx, 0⟩ ⟨40, .other⟩ =
      .stop (.panicked .safeMinusUnderflow) [] :=
  ⟨C10_no_close_at_marker.1 wOkHandler ⟨[], none, 0⟩ wGtidEvent 120 wTrx rfl rfl (by decide)
      rfl rfl,
    C10_no_close_at_marker.2 wOkHandler [] wTrx 40 (by decide)⟩

/-- Length-accounting consequences of a `cont` result, given the
transaction open at entry. -/
theorem finishEvent_cont_remain (handler : Handler) (st : LoopState) (trx : TrxContext)
    (size : Nat) (em0 : List HandlerEvent) (st2 : LoopState) (em : List HandlerEvent)
    (hopen : st.trxCtx = some trx)
    (h : finishEvent handler st trx size em0 = .cont st2 em) :
    size ≤ st.trxRemainSize ∧ st2.trxRemainSize = st.trxRemainSize - size ∧
      st2.trxRemainSize ≤ st.trxRemainSize ∧ (st2.trxCtx = none → st2.trxRemainSize = 0) := by
  obtain ⟨h1, h2, h3⟩ := finishEvent_cont handler st trx size em0 st2 em h
  refine ⟨h1, h2, by omega, ?_⟩
  intro hnone
  rcases h3 with ⟨hceq, _, _, _⟩ | ⟨_, hz, _, _⟩
  · rw [hnone, hopen] at hceq
    exact Option.noConfusion hceq
  · exact hz

/-- C1: the remaining-length counter is non-increasing over every continued
step inside a transaction (the new remainder is exactly the old minus the
event's size, a `Nat` and hence never negative), `safeUint64Minus` returns
the exact difference when it fits and halts with the fatal underflow panic —
never a clamp — otherwise, and a step that closes the transaction leaves the
remainder at exactly zero. -/
theorem C1_remaining_length_accounting :
    (∀ l r : Nat, r ≤ l → safeUint64Minus l r = .ok (l - r)) ∧
    (∀ l r : Nat, l < r → safeUint64Minus l r = .error .safeMinusUnderflow) ∧
    (∀ (handler : Handler) (st : LoopState) (ev : BinlogEvent) (trx : TrxContext)
        (st2 : LoopState) (em : List HandlerEvent),
      st.trxCtx = some trx → (∀ e, ev.body ≠ .gtid e) →
      processEvent handler st ev = .cont st2 em →
      ev.eventSize ≤ st.trxRemainSize ∧
        st2.trxRemainSize = st.trxRemainSize - ev.eventSize ∧
        st2.trxRemainSize ≤ st.trxRemainSize ∧
        (st2.trxCtx = none → st2.trxRemainSize = 0)) := by
  refine ⟨?_, ?_, ?_⟩
  · intro l r hle
    unfold safeUint64Minus
    rw [if_pos hle]
  · intro l r hlt
    unfold safeUint64Minus
    rw [if_neg (by omega)]
  · intro handler st ev trx st2 em hopen hng hpe
    obtain ⟨size, body⟩ := ev
    cases body with
    | gtid e => exact absurd rfl (hng e)
    | rows kind table rows =>
      simp only [processEvent, hopen] at hpe
      by_cases hc : table.columnName.length ≠ table.columnCount
      · rw [if_pos hc] at hpe
        exact StepResult.noConfusion hpe
      · rw [if_neg hc] at hpe
        split at hpe
        next out em0 hrec => exact StepResult.noConfusion hpe
        next em0 hrec => exact finishEvent_cont_remain handler st trx size em0 st2 em hopen hpe
    | other =>
      simp only [processEvent, hopen] at hpe
      exact finishEvent_cont_remain handler st trx size [] st2 em hopen hpe

/-- C1 witness: a 40-byte event against a remaining length of 100. -/
theorem C1_remaining_length_accounting_witness :
    (⟨40, .other⟩ : BinlogEvent).eventSize ≤ (⟨[], some wTrx, 100⟩ : LoopState).trxRemainSize ∧
    (⟨[], some wTrx, 60⟩ : LoopState).trxRemainSize =
      (⟨[], some wTrx, 100⟩ : LoopState).trxRemainSize - (⟨40, .other⟩ : BinlogEvent).eventSize ∧
    (⟨[], some wTrx, 60⟩ : LoopState).trxRemainSize ≤
      (⟨[], some wTrx, 100⟩ : LoopState).trxRemainSize ∧
    ((⟨[], some wTrx, 60⟩ : LoopState).trxCtx = none →
      (⟨[], some wTrx, 60⟩ : LoopState).trxRemainSize = 0) :=
  C1_remaining_length_accounting.2.2 wOkHandler ⟨[], some wTrx, 100⟩ ⟨40, .other⟩ wTrx
    ⟨[], some wTrx, 60⟩ [] rfl (fun _ h => BinlogEventBody.noConfusion h) (by decide)

/-- Marker-count facts for each delivered event shape. -/
theorem isBeginning_rowInsertion (rc : RowChange) :
    (HandlerEvent.rowInsertion rc).isBeginning = false := rfl

theorem isBeginning_rowUpdating (rc : RowChange) :
    (HandlerEvent.rowUpdating rc).isBeginning = false := rfl

theorem isBeginning_rowDeletion (rc : RowChange) :
    (HandlerEvent.rowDeletion rc).isBeginning = false := rfl

theorem isEnding_rowInsertion (rc : RowChange) :
    (HandlerEvent.rowInsertion rc).isEnding = false := rfl

theorem isEnding_rowUpdating (rc : RowChange) :
    (HandlerEvent.rowUpdating rc).isEnding = false := rfl

theorem isEnding_rowDeletion (rc : RowChange) :
    (HandlerEvent.rowDeletion rc).isEnding = false := rfl

/-- The trace of the write-rows helper holds no transaction markers. -/
theorem emitInsertions_counts (h : Handler) (trx : TrxContext) (meta : TableMeta) :
    ∀ rows : List (List Value),
      countBegins (emTrace (emitInsertions h trx meta rows)) = 0 ∧
      countEnds (emTrace (emitInsertions h trx meta rows)) = 0
  | [] => by simp [emitInsertions, emTrace, countBegins, countEnds]
  | row :: rest => by
    have ih := emitInsertions_counts h trx meta rest
    unfold emitInsertions
    cases hn : normalizeRowData meta row with
    | error e => simp [hn, emTrace, countBegins, countEnds]
    | ok after =>
      cases hh : h (.rowInsertion ⟨trx, meta, none, some after⟩) with
      | some err =>
        simp [hn, hh, emTrace, countBegins, countEnds, List.countP_cons,
          HandlerEvent.isBeginning, HandlerEvent.isEnding]
      | none =>
        cases hrec : emitInsertions h trx meta rest with
        | ok em =>
          rw [hrec] at ih
          obtain ⟨ih1, ih2⟩ := ih
          simp only [emTrace] at ih1 ih2
          simp [countBegins, countEnds] at ih1 ih2
          simp [hn, hh, hrec, emTrace, countBegins, countEnds, List.countP_cons,
            isBeginning_rowInsertion, isEnding_rowInsertion, isBeginning_rowDeletion,
            isEnding_rowDeletion]
          exact ⟨ih1, ih2⟩
        | stop out em =>
          rw [hrec] at ih
          obtain ⟨ih1, ih2⟩ := ih
          simp only [emTrace] at ih1 ih2
          simp [countBegins, countEnds] at ih1 ih2
          simp [hn, hh, hrec, emTrace, countBegins, countEnds, List.countP_cons,
            isBeginning_rowInsertion, isEnding_rowInsertion, isBeginning_rowDeletion,
            isEnding_rowDeletion]
          exact ⟨ih1, ih2⟩

/-- The trace of the update-rows helper holds no transaction markers. -/
theorem emitUpdates_counts (h : Handler) (trx : TrxContext) (meta : TableMeta) :
    ∀ rows : List (List Value),
      countBegins (emTrace (emitUpdates h trx meta rows)) = 0 ∧
      countEnds (emTrace (emitUpdates h trx meta rows)) = 0
  | [] => by simp [emitUpdates, emTrace, countBegins, countEnds]
  | [r] => by simp [emitUpdates, emTrace, countBegins, countEnds]
  | bRow :: aRow :: rest => by
    have ih := emitUpdates_counts h trx meta rest
    unfold emitUpdates
    cases hb : normalizeRowData meta bRow with
    | error e => simp [hb, emTrace, countBegins, countEnds]
    | ok b =>
      cases ha : normalizeRowData meta aRow with
      | error e => simp [hb, ha, emTrace, countBegins, countEnds]
      | ok a =>
        cases hh : h (.rowUpdating ⟨trx, meta, some b, some a⟩) with
        | some err =>
          simp [hb, ha, hh, emTrace, countBegins, countEnds, List.countP_cons,
            HandlerEvent.isBeginning, HandlerEvent.isEnding]
        | none =>
          cases hrec : emitUpdates h trx meta rest with
          | ok em =>
            rw [hrec] at ih
            obtain ⟨ih1, ih2⟩ := ih
            simp only [emTrace] at ih1 ih2
            simp [countBegins, countEnds] at ih1 ih2
            simp [hb, ha, hh, hrec, emTrace, countBegins, countEnds, List.countP_cons,
              isBeginning_rowUpdating, isEnding_rowUpdating]
            exact ⟨ih1, ih2⟩
          | stop out em =>
            rw [hrec] at ih
            obtain ⟨ih1, ih2⟩ := ih
            simp only [emTrace] at ih1 ih2
            simp [countBegins, countEnds] at ih1 ih2
            simp [hb, ha, hh, hrec, emTrace, countBegins, countEnds, List.countP_cons,
              isBeginning_rowUpdating, isEnding_rowUpdating]
            exact ⟨ih1, ih2⟩

/-- The trace of the delete-rows helper holds no transaction markers. -/
theorem emitDeletions_counts (h : Handler) (trx : TrxContext) (meta : TableMeta) :
    ∀ rows : List (List Value),
      countBegins (emTrace (emitDeletions h trx meta rows)) = 0 ∧
      countEnds (emTrace (emitDeletions h trx meta rows)) = 0
  | [] => by simp [emitDeletions, emTrace, countBegins, countEnds]
  | row :: rest => by
    have ih := emitDeletions_counts h trx meta rest
    unfold emitDeletions
    cases hn : normalizeRowData meta row with
    | error e => simp [hn, emTrace, countBegins, countEnds]
    | ok before =>
      cases hh : h (.rowDeletion ⟨trx, meta, some before, none⟩) with
      | some err =>
        simp [hn, hh, emTrace, countBegins, countEnds, List.countP_cons,
          HandlerEvent.isBeginning, HandlerEvent.isEnding]
      | none =>
        cases hrec : emitDeletions h trx meta rest with
        | ok em =>
          rw [hrec] at ih
          obtain ⟨ih1, ih2⟩ := ih
          simp only [emTrace] at ih1 ih2
          simp [countBegins, countEnds] at ih1 ih2
          simp [hn, hh, hrec, emTrace, countBegins, countEnds, List.countP_cons,
            isBeginning_rowInsertion, isEnding_rowInsertion, isBeginning_rowDeletion,
            isEnding_rowDeletion]
          exact ⟨ih1, ih2⟩
        | stop out em =>
          rw [hrec] at ih
          obtain ⟨ih1, ih2⟩ := ih
          simp only [emTrace] at ih1 ih2
          simp [countBegins, countEnds] at ih1 ih2
          simp [hn, hh, hrec, emTrace, countBegins, countEnds, List.countP_cons,
            isBeginning_rowInsertion, isEnding_rowInsertion, isBeginning_rowDeletion,
            isEnding_rowDeletion]
          exact ⟨ih1, ih2⟩

/-- The trace of a rows-event batch holds no transaction markers. -/
theorem emitRows_counts (h : Handler) (trx : TrxContext) (meta : TableMeta) (kind : RowsKind)
    (rows : List (List Value)) :
    countBegins (emTrace (emitRows h trx meta kind rows)) = 0 ∧
    countEnds (emTrace (emitRows h trx meta kind rows)) = 0 := by
  cases kind with
  | write => exact emitInsertions_counts h trx meta rows
  | update => exact emitUpdates_counts h trx meta rows
  | delete => exact emitDeletions_counts h trx meta rows
  | other => simp [emitRows, emTrace, countBegins, countEnds]

/-- Every continued step preserves the begin/end balance invariant. -/
theorem processEvent_inv (handler : Handler) (st : LoopState) (ev : BinlogEvent)
    (st2 : LoopState) (em : List HandlerEvent)
    (hpe : processEvent handler st ev = .cont st2 em) :
    ∀ tr, loopInv st tr → loopInv st2 (tr ++ em) := by
  intro tr hinv
  obtain ⟨size, body⟩ := ev
  obtain ⟨g, tc, rem⟩ := st
  cases body with
  | gtid e =>
    simp only [processEvent] at hpe
    unfold handleGtid at hpe
    cases tc with
    | some trx0 => exact StepResult.noConfusion hpe
    | none =>
      dsimp only at hpe
      by_cases h0 : e.transactionLength = 0
      · rw [if_pos h0] at hpe
        exact StepResult.noConfusion hpe
      · rw [if_neg h0] at hpe
        split at hpe
        next p heq => exact StepResult.noConfusion hpe
        next remain heq =>
          split at hpe
          next err hh => exact StepResult.noConfusion hpe
          next hh =>
            cases hpe
            unfold loopInv at hinv ⊢
            simp only [countBegins, countEnds, List.countP_append, List.countP_cons,
              List.countP_nil, HandlerEvent.isBeginning, HandlerEvent.isEnding] at hinv ⊢
            try simp at hinv ⊢
            omega
  | rows kind table rows =>
    cases tc with
    | none =>
      simp only [processEvent] at hpe
      cases hpe
      simpa using hinv
    | some trx =>
      simp only [processEvent] at hpe
      by_cases hc : table.columnName.length ≠ table.columnCount
      · rw [if_pos hc] at hpe
        exact StepResult.noConfusion hpe
      · rw [if_neg hc] at hpe
        split at hpe
        next out em0 hrec => exact StepResult.noConfusion hpe
        next em0 hrec =>
          have hcnt := emitRows_counts handler trx table.meta kind rows
          rw [hrec] at hcnt
          simp only [emTrace] at hcnt
          obtain ⟨_, _, hdis⟩ :=
            finishEvent_cont handler ⟨g, some trx, rem⟩ trx size em0 st2 em hpe
          unfold loopInv at hinv ⊢
          rcases hdis with ⟨hceq, _, _, hemeq⟩ | ⟨hnone, _, hemeq, _⟩
          · rw [hceq, hemeq]
            simp only [countBegins, countEnds, List.countP_append] at hinv hcnt ⊢
            try simp at hinv ⊢
            omega
          · rw [hnone, hemeq]
            simp only [countBegins, countEnds, List.countP_append, List.countP_cons,
              List.countP_nil, HandlerEvent.isBeginning, HandlerEvent.isEnding] at hinv hcnt ⊢
            try simp at hinv ⊢
            omega
  | other =>
    cases tc with
    | none =>
      simp only [processEvent] at hpe
      cases hpe
      simpa using hinv
    | some trx =>
      simp only [processEvent] at hpe
      obtain ⟨_, _, hdis⟩ := finishEvent_cont handler ⟨g, some trx, rem⟩ trx size [] st2 em hpe
      unfold loopInv at hinv ⊢
      rcases hdis with ⟨hceq, _, _, hemeq⟩ | ⟨hnone, _, hemeq, _⟩
      · rw [hceq, hemeq]
        simpa using hinv
      · rw [hnone, hemeq]
        simp only [countBegins, countEnds, List.countP_append, List.countP_cons,
          List.countP_nil, HandlerEvent.isBeginning, HandlerEvent.isEnding] at hinv ⊢
        try simp at hinv ⊢
        omega

/-- The begin/end balance invariant is preserved across any run that
exhausts its input without terminating. -/
theorem runLoop_inv (handler : Handler) :
    ∀ (input : List FetchResult) (st : LoopState) (tr : List HandlerEvent)
      (st2 : LoopState) (tr2 : List HandlerEvent),
      runLoop handler st input = .pending st2 tr2 → loopInv st tr → loopInv st2 (tr ++ tr2)
  | [], st, tr, st2, tr2 => by
    intro h hinv
    simp only [runLoop] at h
    cases h
    simpa using hinv
  | fr :: rest, st, tr, st2, tr2 => by
    intro h hinv
    cases fr with
    | cancelledBefore =>
      simp only [runLoop] at h
      exact RunResult.noConfusion h
    | fetchCtxErr =>
      simp only [runLoop] at h
      exact RunResult.noConfusion h
    | fetchErr e =>
      simp only [runLoop] at h
      exact RunResult.noConfusion h
    | event ev =>
      simp only [runLoop] at h
      split at h
      next out em hpe => exact RunResult.noConfusion h
      next st' em hpe =>
        split at h
        next st3 tr3 hrun =>
          injection h with h1 h2
          subst h1
          subst h2
          have hrec := runLoop_inv handler rest st' (tr ++ em) st3 tr3 hrun
            (processEvent_inv handler st ev st' em hpe tr hinv)
          simpa [List.append_assoc] using hrec
        next out tr3 hrun => exact RunResult.noConfusion h

/-- C3: when the remaining length reaches exactly zero the step emits
`TrxEnding` as its last delivery, advances the running GTID set to the
transaction's after snapshot (the before snapshot merged with this
transaction's GTID), and drops the context; consequently a run that leaves
the engine idle has delivered exactly as many `TrxBeginning` as `TrxEnding`
events. -/
theorem C3_transaction_close_and_balance :
    (∀ (handler : Handler) (st : LoopState) (ev : BinlogEvent) (trx : TrxContext)
        (st2 : LoopState) (em : List HandlerEvent),
      st.trxCtx = some trx → (∀ e, ev.body ≠ .gtid e) →
      processEvent handler st ev = .cont st2 em → st2.trxCtx = none →
      em.getLast? = some (.trxEnding trx) ∧
        st2.prevGset = GTIDSet.clone (TrxContext.afterGTIDSet trx) ∧
        TrxContext.afterGTIDSet trx = GTIDSet.mergeOne trx.prevGset trx.gtid ∧
        st2.trxRemainSize = 0) ∧
    (∀ (handler : Handler) (gset : GTIDSet) (input : List FetchResult)
        (st2 : LoopState) (tr : List HandlerEvent),
      IncrDump handler gset input = .pending st2 tr → st2.trxCtx = none →
      countBegins tr = countEnds tr) := by
  constructor
  · intro handler st ev trx st2 em hopen hng hpe hnone
    obtain ⟨size, body⟩ := ev
    have key : ∀ em0, finishEvent handler st trx size em0 = .cont st2 em →
        em.getLast? = some (.trxEnding trx) ∧
          st2.prevGset = GTIDSet.clone (TrxContext.afterGTIDSet trx) ∧
          TrxContext.afterGTIDSet trx = GTIDSet.mergeOne trx.prevGset trx.gtid ∧
          st2.trxRemainSize = 0 := by
      intro em0 hfe
      obtain ⟨_, _, hdis⟩ := finishEvent_cont handler st trx size em0 st2 em hfe
      rcases hdis with ⟨hceq, _, _, _⟩ | ⟨_, hz, hemeq, hgeq⟩
      · rw [hnone, hopen] at hceq
        exact Option.noConfusion hceq
      · rw [hemeq]
        exact ⟨List.getLast?_concat em0, hgeq, rfl, hz⟩
    cases body with
    | gtid e => exact absurd rfl (hng e)
    | rows kind table rows =>
      simp only [processEvent, hopen] at hpe
      by_cases hc : table.columnName.length ≠ table.columnCount
      · rw [if_pos hc] at hpe
        exact StepResult.noConfusion hpe
      · rw [if_neg hc] at hpe
        split at hpe
        next out em0 hrec => exact StepResult.noConfusion hpe
        next em0 hrec => exact key em0 hpe
    | other =>
      simp only [processEvent, hopen] at hpe
      exact key [] hpe
  · intro handler gset input st2 tr hrun hnone
    have hinv0 : loopInv ⟨GTIDSet.clone gset, none, 0⟩ [] := by
      simp [loopInv, countBegins, countEnds]
    have := runLoop_inv handler input ⟨GTIDSet.clone gset, none, 0⟩ [] st2 tr hrun hinv0
    unfold loopInv at this
    rw [hnone] at this
    simpa using this

/-- C3 witness: a complete 120-byte transaction (begin marker of size 40
plus two 40-byte events) leaves the engine idle with one begin and one
end. -/
theorem C3_transaction_close_and_balance_witness :
    countBegins [HandlerEvent.trxBeginning wTrx, HandlerEvent.trxEnding wTrx] =
      countEnds [HandlerEvent.trxBeginning wTrx, HandlerEvent.trxEnding wTrx] :=
  C3_transaction_close_and_balance.2 wOkHandler []
    [.event ⟨40, .gtid wGtidEvent⟩, .event ⟨40, .other⟩, .event ⟨40, .other⟩]
    ⟨["3e11fa47-71ca-11e1-9e33-c80aa9429562:23"], none, 0⟩
    [HandlerEvent.trxBeginning wTrx, HandlerEvent.trxEnding wTrx] (by decide) rfl

/-- C4: a write-rows batch of `n` rows yields exactly `n` `RowInsertion`
events in row order, each carrying only an after image; a delete-rows batch
yields one before-image-only `RowDeletion` per row in order; an update-rows
batch pairs rows `2k`/`2k+1` as before then after, yielding one
`RowUpdating` per pair in order; and a rows event inside a transaction
delivers exactly that sequence synchronously before the length
accounting. -/
theorem C4_row_mutation_batches :
    (∀ (handler : Handler) (trx : TrxContext) (meta : TableMeta)
        (rows nrows : List (List Value)),
      List.Forall₂ (fun r nr => normalizeRowData meta r = .ok nr) rows nrows →
      (∀ e, handler e = none) →
      emitInsertions handler trx meta rows =
        .ok (nrows.map fun nr => .rowInsertion ⟨trx, meta, none, some nr⟩)) ∧
    (∀ (handler : Handler) (trx : TrxContext) (meta : TableMeta)
        (rows nrows : List (List Value)),
      List.Forall₂ (fun r nr => normalizeRowData meta r = .ok nr) rows nrows →
      (∀ e, handler e = none) →
      emitDeletions handler trx meta rows =
        .ok (nrows.map fun nr => .rowDeletion ⟨trx, meta, some nr, none⟩)) ∧
    (∀ (handler : Handler) (trx : TrxContext) (meta : TableMeta)
        (pairs npairs : List (List Value × List Value)),
      List.Forall₂ (fun p np => normalizeRowData meta p.1 = .ok np.1 ∧
        normalizeRowData meta p.2 = .ok np.2) pairs npairs →
      (∀ e, handler e = none) →
      emitUpdates handler trx meta (interleavePairs pairs) =
        .ok (npairs.map fun np => .rowUpdating ⟨trx, meta, some np.1, some np.2⟩)) ∧
    (∀ (handler : Handler) (st : LoopState) (size : Nat) (trx : TrxContext) (kind : RowsKind)
        (table : TableMap) (rows : List (List Value)) (em : List HandlerEvent),
      st.trxCtx = some trx → table.columnName.length = table.columnCount →
      emitRows handler trx table.meta kind rows = .ok em →
      processEvent handler st ⟨size, .rows kind table rows⟩ =
        finishEvent handler st trx size em) := by
  refine ⟨?_, ?_, ?_, ?_⟩
  · intro handler trx meta rows nrows hf hok
    induction hf with
    | nil => simp [emitInsertions]
    | cons hr hrest ih => simp [emitInsertions, hr, hok, ih]
  · intro handler trx meta rows nrows hf hok
    induction hf with
    | nil => simp [emitDeletions]
    | cons hr hrest ih => simp [emitDeletions, hr, hok, ih]
  · intro handler trx meta pairs npairs hf hok
    induction hf with
    | nil => simp [interleavePairs, emitUpdates]
    | cons hr hrest ih =>
      rename_i p np ps nps
      obtain ⟨b, a⟩ := p
      obtain ⟨nb, na⟩ := np
      obtain ⟨hb, ha⟩ := hr
      simp only at hb ha
      simp [interleavePairs, emitUpdates, hb, ha, hok, ih]
  · intro handler st size trx kind table rows em hopen hc hrec
    simp only [processEvent, hopen]
    rw [if_neg (by simp [hc])]
    simp only [hrec]

/-- C4 witness: a write-rows batch of three rows yields three
`RowInsertion` events in row order. -/
theorem C4_row_mutation_batches_witness :
    emitInsertions wOkHandler wTrx wMeta [[.i32 1], [.i32 2], [.i32 3]] =
      .ok [.rowInsertion ⟨wTrx, wMeta, none, some [.i32 1]⟩,
        .rowInsertion ⟨wTrx, wMeta, none, some [.i32 2]⟩,
        .rowInsertion ⟨wTrx, wMeta, none, some [.i32 3]⟩] :=
  C4_row_mutation_batches.1 wOkHandler wTrx wMeta [[.i32 1], [.i32 2], [.i32 3]]
    [[.i32 1], [.i32 2], [.i32 3]]
    (List.Forall₂.cons rfl (List.Forall₂.cons rfl (List.Forall₂.cons rfl List.Forall₂.nil)))
    (fun _ => rfl)

/-- C8: a `stop` outcome of one step terminates the run with exactly that
outcome and trace — nothing after the failing event is processed; a handler
error on a row event stops the emission right there with the error returned
verbatim; and a rows-event step that stops on a handler error returns the
error unchanged with no `TrxEnding` delivered. -/
theorem C8_handler_error_halts :
    (∀ (handler : Handler) (st : LoopState) (ev : BinlogEvent) (rest : List FetchResult)
        (out : Outcome) (em : List HandlerEvent),
      processEvent handler st ev = .stop out em →
      runLoop handler st (.event ev :: rest) = .terminated out em) ∧
    (∀ (handler : Handler) (trx : TrxContext) (meta : TableMeta) (row : List Value)
        (rest : List (List Value)) (err : String) (nr : List Value),
      normalizeRowData meta row = .ok nr →
      handler (.rowInsertion ⟨trx, meta, none, some nr⟩) = some err →
      emitInsertions handler trx meta (row :: rest) =
        .stop (.fail err) [.rowInsertion ⟨trx, meta, none, some nr⟩]) ∧
    (∀ (handler : Handler) (st : LoopState) (size : Nat) (trx : TrxContext) (kind : RowsKind)
        (table : TableMap) (rows : List (List Value)) (err : String) (em : List HandlerEvent),
      st.trxCtx = some trx → table.columnName.length = table.columnCount →
      emitRows handler trx table.meta kind rows = .stop (.fail err) em →
      processEvent handler st ⟨size, .rows kind table rows⟩ = .stop (.fail err) em ∧
        countEnds em = 0) := by
  refine ⟨?_, ?_, ?_⟩
  · intro handler st ev rest out em hpe
    simp [runLoop, hpe]
  · intro handler trx meta row rest err nr hn hh
    simp [emitInsertions, hn, hh]
  · intro handler st size trx kind table rows err em hopen hc hrec
    have hcnt := emitRows_counts handler trx table.meta kind rows
    rw [hrec] at hcnt
    simp only [emTrace] at hcnt
    refine ⟨?_, hcnt.2⟩
    simp only [processEvent, hopen]
    rw [if_neg (by simp [hc])]
    simp only [hrec]

/-- C8 witness: the handler fails on the second of three insertions; the
run terminates immediately with the error unchanged, the third row and the
following event are never processed, and no `TrxEnding` is delivered. -/
theorem C8_handler_error_halts_witness :
    runLoop wBoomHandler ⟨[], some wTrx, 100⟩
      [.event ⟨40, .rows .write wTable [[.i32 1], [.i32 2], [.i32 3]]⟩, .event ⟨40, .other⟩] =
      .terminated (.fail "boom")
        [.rowInsertion ⟨wTrx, wMeta, none, some [.i32 1]⟩,
          .rowInsertion ⟨wTrx, wMeta, none, some [.i32 2]⟩] :=
  C8_handler_error_halts.1 wBoomHandler ⟨[], some wTrx, 100⟩
    ⟨40, .rows .write wTable [[.i32 1], [.i32 2], [.i32 3]]⟩ [.event ⟨40, .other⟩]
    (.fail "boom")
    [.rowInsertion ⟨wTrx, wMeta, none, some [.i32 1]⟩,
      .rowInsertion ⟨wTrx, wMeta, none, some [.i32 2]⟩] (by decide)

/-- C5: for an unsigned numeric column, 8-, 16- and 64-bit signed values
are reinterpreted as unsigned by bit pattern (the result is bounded by the
width and congruent to the source modulo `2^w`, hence never negative); a
negative medium-int value `v` becomes `16777215 + v + 1`, landing within
the 24-bit value space; floating-point values pass through unmodified. -/
theorem C5_unsigned_numeric_normalization (meta : TableMeta) (i : Nat)
    (hnum : meta.isNumericColumn i = true)
    (huns : meta.unsignedMap.getD i false = true) :
    (∀ v : Int, normalizeColumnValue meta i (.i8 v) = .ok (.u8 (uint8ofInt v)) ∧
      uint8ofInt v < 256 ∧ (uint8ofInt v : Int) % 256 = v % 256) ∧
    (∀ v : Int, normalizeColumnValue meta i (.i16 v) = .ok (.u16 (uint16ofInt v)) ∧
      uint16ofInt v < 65536 ∧ (uint16ofInt v : Int) % 65536 = v % 65536) ∧
    (∀ v : Int, normalizeColumnValue meta i (.i64 v) = .ok (.u64 (uint64ofInt v)) ∧
      uint64ofInt v < 18446744073709551616 ∧
      (uint64ofInt v : Int) % 18446744073709551616 = v % 18446744073709551616) ∧
    (∀ v : Int, meta.realType i = MYSQL_TYPE_INT24 → -8388608 ≤ v → v < 0 →
      normalizeColumnValue meta i (.i32 v) = .ok (.u32 ((16777215 + v + 1).toNat)) ∧
      (16777215 + v + 1).toNat ≤ 16777215) ∧
    (∀ b : Nat, normalizeColumnValue meta i (.f32 b) = .ok (.f32 b)) ∧
    (∀ b : Nat, normalizeColumnValue meta i (.f64 b) = .ok (.f64 b)) := by
  rw [List.getD_eq_getElem?_getD] at huns
  refine ⟨?_, ?_, ?_, ?_, ?_, ?_⟩
  · intro v
    refine ⟨by simp [normalizeColumnValue, hnum, huns], ?_, ?_⟩
    · unfold uint8ofInt
      omega
    · unfold uint8ofInt
      omega
  · intro v
    refine ⟨by simp [normalizeColumnValue, hnum, huns], ?_, ?_⟩
    · unfold uint16ofInt
      omega
    · unfold uint16ofInt
      omega
  · intro v
    refine ⟨by simp [normalizeColumnValue, hnum, huns], ?_, ?_⟩
    · unfold uint64ofInt
      omega
    · unfold uint64ofInt
      omega
  · intro v hrt hlo hneg
    have hpay : uint32ofInt (16777215 + v + 1) = (16777215 + v + 1).toNat := by
      unfold uint32ofInt
      omega
    refine ⟨by simp [normalizeColumnValue, hnum, huns, hrt, hneg, hpay], by omega⟩
  · intro b
    simp [normalizeColumnValue, hnum, huns]
  · intro b
    simp [normalizeColumnValue, hnum, huns]

/-- C5 witness: an unsigned medium-int column with decoded value `-5`
normalizes to `16777211`, within the 24-bit value space. -/
theorem C5_unsigned_numeric_normalization_witness :
    normalizeColumnValue wMedMeta 0 (.i32 (-5)) = .ok (.u32 16777211) ∧
    (16777215 + (-5 : Int) + 1).toNat ≤ 16777215 :=
  (C5_unsigned_numeric_normalization wMedMeta 0 (by decide) (by decide)).2.2.2.1 (-5)
    (by decide) (by decide) (by decide)

/-- An enum real type is not numeric. -/
theorem isEnum_not_numeric (meta : TableMeta) (i : Nat) (h : meta.isEnumColumn i = true) :
    meta.isNumericColumn i = false := by
  simp only [TableMeta.isEnumColumn, beq_iff_eq] at h
  simp [TableMeta.isNumericColumn, h, MYSQL_TYPE_ENUM, MYSQL_TYPE_TINY, MYSQL_TYPE_SHORT,
    MYSQL_TYPE_INT24, MYSQL_TYPE_LONG, MYSQL_TYPE_LONGLONG, MYSQL_TYPE_NEWDECIMAL,
    MYSQL_TYPE_FLOAT, MYSQL_TYPE_DOUBLE]

/-- A set real type is not numeric. -/
theorem isSet_not_numeric (meta : TableMeta) (i : Nat) (h : meta.isSetColumn i = true) :
    meta.isNumericColumn i = false := by
  simp only [TableMeta.isSetColumn, beq_iff_eq] at h
  simp [TableMeta.isNumericColumn, h, MYSQL_TYPE_SET, MYSQL_TYPE_TINY, MYSQL_TYPE_SHORT,
    MYSQL_TYPE_INT24, MYSQL_TYPE_LONG, MYSQL_TYPE_LONGLONG, MYSQL_TYPE_NEWDECIMAL,
    MYSQL_TYPE_FLOAT, MYSQL_TYPE_DOUBLE]

/-- A set real type is not an enum. -/
theorem isSet_not_enum (meta : TableMeta) (i : Nat) (h : meta.isSetColumn i = true) :
    meta.isEnumColumn i = false := by
  simp only [TableMeta.isSetColumn, beq_iff_eq] at h
  simp [TableMeta.isEnumColumn, h, MYSQL_TYPE_SET, MYSQL_TYPE_ENUM]

/-- A successful run of the set-column loop collects, in bit-index order,
the label of every set bit in the scanned window. -/
theorem collectSetLabelsAux_ok (labels : List String) (v : Int) :
    ∀ (k j : Nat) (ls : List String),
      collectSetLabelsAux labels v j k = .ok ls →
      ls = ((List.range' j k).filter fun x => int64bit v x).map fun x => labels.getD x ""
  | 0, j, ls => by
    intro h
    unfold collectSetLabelsAux at h
    cases h
    simp
  | k + 1, j, ls => by
    intro h
    unfold collectSetLabelsAux at h
    by_cases hb : int64bit v j
    · rw [if_pos hb] at h
      cases hg : labels.get? j with
      | none =>
        rw [hg] at h
        exact Except.noConfusion h
      | some l =>
        rw [hg] at h
        cases hrec : collectSetLabelsAux labels v (j + 1) k with
        | error e =>
          rw [hrec] at h
          exact Except.noConfusion h
        | ok ls0 =>
          rw [hrec] at h
          cases h
          have ih := collectSetLabelsAux_ok labels v k (j + 1) ls0 hrec
          have hgd : labels[j]?.getD "" = l := by
            rw [← List.get?_eq_getElem?, hg]
            rfl
          simp [List.range'_succ j k 1, hb, ih, hgd]
    · rw [if_neg hb] at h
      have ih := collectSetLabelsAux_ok labels v k (j + 1) ls h
      simp only [Bool.not_eq_true] at hb
      simp [List.range'_succ j k 1, hb, ih]

/-- A set bit in the scanned window that lies beyond the label list makes
the set-column loop fail with the index-out-of-range panic. -/
theorem collectSetLabelsAux_err (labels : List String) (v : Int) :
    ∀ (k j p : Nat), j ≤ p → p < j + k → int64bit v p = true → labels.length ≤ p →
      collectSetLabelsAux labels v j k = .error .indexOutOfRange
  | 0, j, p => by
    intro hjp hpk hbit hlen
    omega
  | k + 1, j, p => by
    intro hjp hpk hbit hlen
    unfold collectSetLabelsAux
    by_cases hb : int64bit v j
    · rw [if_pos hb]
      cases hg : labels.get? j with
      | none => rfl
      | some l =>
        have hjlen : j < labels.length := by
          by_contra hc
          rw [List.get?_eq_none.mpr (by omega)] at hg
          exact Option.noConfusion hg
        have hrec := collectSetLabelsAux_err labels v k (j + 1) p (by omega) (by omega)
          hbit hlen
        rw [hrec]
        rfl
    · have hjp2 : j + 1 ≤ p := by
        rcases Nat.eq_or_lt_of_le hjp with he | hl
        · rw [← he] at hbit
          rw [hbit] at hb
          exact absurd rfl hb
        · omega
      rw [if_neg hb]
      exact collectSetLabelsAux_err labels v k (j + 1) p hjp2 (by omega) hbit hlen

/-- C6 counterexample: a set column with the single defined label `"a"` and
bitmask value `2` (only bit 1 set).  The claim's words — join "the label for
each set bit position with a defined label" — predict the empty join `""`;
the code instead indexes the label list at position 1 and halts with the
fatal index-out-of-range panic. -/
theorem C6_set_undefined_label_counterexample :
    normalizeColumnValue wSetMeta 0 (.i64 2) = .error .indexOutOfRange ∧
    normalizeColumnValue wSetMeta 0 (.i64 2) ≠ .ok (.str "") := by
  refine ⟨rfl, ?_⟩
  intro h
  rw [show normalizeColumnValue wSetMeta 0 (.i64 2) = .error .indexOutOfRange from rfl] at h
  exact Except.noConfusion h

/-- C6 (amended): an enum value must decode as `int64` (else a fatal type
mismatch naming the expected and actual kinds) and indexes the label list
1-based; a set value must decode as `int64` (else fatal) and normalizes to
the comma-separated join, in bit-index order, of the label at each set bit
position — where every set bit position must carry a defined label: a set
bit beyond the label list is a fatal index-out-of-range panic, not
skipped. -/
theorem C6_enum_set_normalization :
    (∀ (meta : TableMeta) (i : Nat) (val : Value), meta.isEnumColumn i = true →
      val ≠ .null → (∀ v, val ≠ .i64 v) →
      normalizeColumnValue meta i val =
        .error (.typeMismatch "int64 for enum (MYSQL_TYPE_ENUM) field" val.kindName)) ∧
    (∀ (meta : TableMeta) (i : Nat) (v : Int), meta.isEnumColumn i = true →
      1 ≤ v → (v - 1).toNat < (meta.enumStrValueMap.getD i []).length →
      normalizeColumnValue meta i (.i64 v) =
        .ok (.str ((meta.enumStrValueMap.getD i []).getD (v - 1).toNat ""))) ∧
    (∀ (meta : TableMeta) (i : Nat) (val : Value), meta.isSetColumn i = true →
      val ≠ .null → (∀ v, val ≠ .i64 v) →
      normalizeColumnValue meta i val =
        .error (.typeMismatch "int64 for set (MYSQL_TYPE_SET) field" val.kindName)) ∧
    (∀ (meta : TableMeta) (i : Nat) (v : Int) (ls : List String), meta.isSetColumn i = true →
      collectSetLabels (meta.setStrValueMap.getD i []) v = .ok ls →
      normalizeColumnValue meta i (.i64 v) = .ok (.str (String.intercalate "," ls)) ∧
        ls = (((List.range 64).filter fun j => int64bit v j).map
          fun j => (meta.setStrValueMap.getD i []).getD j "")) ∧
    (∀ (meta : TableMeta) (i : Nat) (v : Int) (j : Nat), meta.isSetColumn i = true →
      j < 64 → int64bit v j = true → (meta.setStrValueMap.getD i []).length ≤ j →
      normalizeColumnValue meta i (.i64 v) = .error .indexOutOfRange) := by
  refine ⟨?_, ?_, ?_, ?_, ?_⟩
  · intro meta i val henum hnull hni
    have hnn := isEnum_not_numeric meta i henum
    cases val
    case null => exact absurd rfl hnull
    case i64 v => exact absurd rfl (hni v)
    all_goals simp [normalizeColumnValue, hnn, henum, Value.kindName]
  · intro meta i v henum h1 h2
    have hnn := isEnum_not_numeric meta i henum
    rw [List.getD_eq_getElem?_getD] at h2
    have h3 : v.toNat - 1 < (meta.enumStrValueMap[i]?.getD []).length := by omega
    simp [normalizeColumnValue, hnn, henum, h1, h2, h3]
  · intro meta i val hset hnull hni
    have hnn := isSet_not_numeric meta i hset
    have hne := isSet_not_enum meta i hset
    cases val
    case null => exact absurd rfl hnull
    case i64 v => exact absurd rfl (hni v)
    all_goals simp [normalizeColumnValue, hnn, hne, hset, Value.kindName]
  · intro meta i v ls hset hcol
    have hnn := isSet_not_numeric meta i hset
    have hne := isSet_not_enum meta i hset
    rw [List.getD_eq_getElem?_getD] at hcol
    refine ⟨by simp [normalizeColumnValue, hnn, hne, hset, hcol, Except.map], ?_⟩
    unfold collectSetLabels at hcol
    have := collectSetLabelsAux_ok (meta.setStrValueMap[i]?.getD []) v 64 0 ls hcol
    simpa [List.range_eq_range'] using this
  · intro meta i v j hset hj64 hbit hlen
    have hnn := isSet_not_numeric meta i hset
    have hne := isSet_not_enum meta i hset
    rw [List.getD_eq_getElem?_getD] at hlen
    have herr := collectSetLabelsAux_err (meta.setStrValueMap[i]?.getD []) v 64 0 j
      (Nat.zero_le j) (by omega) hbit hlen
    simp [normalizeColumnValue, hnn, hne, hset, collectSetLabels, herr, Except.map]

/-- C6 witness: a 1-based enum lookup, a set join in bit-index order, and
the fatal out-of-range case. -/
theorem C6_enum_set_normalization_witness :
    normalizeColumnValue wEnumMeta 0 (.i64 2) = .ok (.str "green") ∧
    normalizeColumnValue wSet3Meta 0 (.i64 5) = .ok (.str "a,c") ∧
    normalizeColumnValue wSetMeta 0 (.i64 2) = .error .indexOutOfRange :=
  ⟨C6_enum_set_normalization.2.1 wEnumMeta 0 2 (by decide) (by decide) (by decide),
    (C6_enum_set_normalization.2.2.2.1 wSet3Meta 0 5 ["a", "c"] (by decide) rfl).1,
    C6_enum_set_normalization.2.2.2.2 wSetMeta 0 2 1 (by decide) (by decide) (by decide)
      (by decide)⟩

/-- A successful row normalization keeps the column count and normalizes
the column at every index with that index's column rules. -/
theorem normalizeRowDataAux_getD (meta : TableMeta) :
    ∀ (j : Nat) (data out : List Value),
      normalizeRowDataAux meta j data = .ok out →
      out.length = data.length ∧
        ∀ i, i < data.length →
          normalizeColumnValue meta (j + i) (data.getD i .null) = .ok (out.getD i .null)
  | j, [], out => by
    intro h
    unfold normalizeRowDataAux at h
    cases h
    exact ⟨rfl, fun i hi => absurd hi (by simp)⟩
  | j, v :: rest, out => by
    intro h
    unfold normalizeRowDataAux at h
    cases hv : normalizeColumnValue meta j v with
    | error e =>
      rw [hv] at h
      exact Except.noConfusion h
    | ok v2 =>
      rw [hv] at h
      cases hr : normalizeRowDataAux meta (j + 1) rest with
      | error e =>
        rw [hr] at h
        exact Except.noConfusion h
      | ok rest2 =>
        rw [hr] at h
        cases h
        have ih := normalizeRowDataAux_getD meta (j + 1) rest rest2 hr
        refine ⟨by simp [ih.1], ?_⟩
        intro i hi
        cases i with
        | zero => simpa using hv
        | succ i2 =>
          have harg : j + (i2 + 1) = (j + 1) + i2 := by omega
          simp only [List.getD_cons_succ, harg]
          exact ih.2 i2 (by simpa using hi)

/-- C7: for an enum or set column, whatever the raw value, a successful
normalization yields the untouched `nil` for a `nil` input and a string for
everything else — never a raw integer; the same holds at every enum/set
column of every successfully normalized row. -/
theorem C7_enum_set_output_string :
    (∀ (meta : TableMeta) (i : Nat) (val out : Value),
      meta.isEnumColumn i = true ∨ meta.isSetColumn i = true →
      normalizeColumnValue meta i val = .ok out →
      (val = .null ∧ out = .null) ∨ ∃ s, out = .str s) ∧
    (∀ (meta : TableMeta) (data out : List Value) (i : Nat),
      meta.isEnumColumn i = true ∨ meta.isSetColumn i = true →
      normalizeRowData meta data = .ok out → i < data.length →
      (data.getD i .null = .null ∧ out.getD i .null = .null) ∨
        ∃ s, out.getD i .null = .str s) := by
  have main : ∀ (meta : TableMeta) (i : Nat) (val out : Value),
      meta.isEnumColumn i = true ∨ meta.isSetColumn i = true →
      normalizeColumnValue meta i val = .ok out →
      (val = .null ∧ out = .null) ∨ ∃ s, out = .str s := by
    intro meta i val out hcol hok
    rcases hcol with he | hs
    · have hnn := isEnum_not_numeric meta i he
      cases val
      case null =>
        simp [normalizeColumnValue] at hok
        exact Or.inl ⟨rfl, hok.symm⟩
      case i64 v =>
        refine Or.inr ?_
        simp only [normalizeColumnValue, hnn, he] at hok
        simp only [Bool.false_eq_true, if_false, if_true] at hok
        split at hok
        · cases hok
          exact ⟨_, rfl⟩
        · exact Except.noConfusion hok
      all_goals simp [normalizeColumnValue, hnn, he] at hok
    · have hnn := isSet_not_numeric meta i hs
      have hne := isSet_not_enum meta i hs
      cases val
      case null =>
        simp [normalizeColumnValue] at hok
        exact Or.inl ⟨rfl, hok.symm⟩
      case i64 v =>
        refine Or.inr ?_
        simp only [normalizeColumnValue, hnn, hne, hs] at hok
        simp only [Bool.false_eq_true, if_false, if_true] at hok
        cases hrec : collectSetLabels (meta.setStrValueMap.getD i []) v with
        | error e =>
          rw [hrec] at hok
          exact Except.noConfusion hok
        | ok ls =>
          rw [hrec] at hok
          cases hok
          exact ⟨_, rfl⟩
      all_goals simp [normalizeColumnValue, hnn, hne, hs] at hok
  refine ⟨main, ?_⟩
  intro meta data out i hcol hok hi
  have hidx := (normalizeRowDataAux_getD meta 0 data out hok).2 i hi
  rw [Nat.zero_add] at hidx
  exact main meta i (data.getD i .null) (out.getD i .null) hcol hidx

/-- C7 witness: a concrete enum lookup produces a string. -/
theorem C7_enum_set_output_string_witness :
    ((Value.i64 2) = .null ∧ (Value.str "green") = .null) ∨
      ∃ s, (Value.str "green") = .str s :=
  C7_enum_set_output_string.1 wEnumMeta 0 (.i64 2) (.str "green") (Or.inl (by decide)) rfl

end Golibs.Incrdump
